import Mathlib

/-!
Verification development for the archive synchronization engine
(`00_Apps/archive_sync.py`): a one-directional puller that reconciles a
local file tree against a remote, versioned manifest.

The Python module is shallowly embedded:

* strings are Lean `String`s, with ASCII-level models of `str.lower`,
  `str.split("/")`, `str.replace("\x5c", "/")` and `str.strip` written over
  the character list (the library versions do not reduce in the kernel);
* filesystem paths are lists of segments (`AbsPath`); `Path.resolve()` is
  modelled by segment normalisation (empty / dot segments dropped,
  dot-dot popping one segment), symlinks are not modelled;
* the local tree is a function from resolved absolute paths to the data of
  the regular file stored there (`FS`); only regular files are modelled,
  `exists() and is_file()` is `Option.isSome`;
* a file's bytes are abstracted to the pair of its SHA-256 hex digest and
  its byte length (`FileData`) - exactly the two observations the engine
  makes of file content;
* the manifest wire document is a JSON value (`JVal`), used by
  `validate_manifest`; the diff and transfer layers work on the structured
  `Entry`/`Manifest` records, which model the dictionary rows the Python
  code threads through (`manifestOfJ` is the bridge, reading the same keys
  the code reads at point of use);
* network effects are oracles supplied by the caller: the outcome of the
  manifest fetch (`FetchOutcome`), the outcome of one streamed download
  per URL (`SyncEnv.net`), the pCloud folder resolver (`SyncEnv.resolver`),
  an OS-failure oracle for `unlink` (`SyncEnv.delFail`), and the
  cancellation predicate indexed by the 1-based loop iteration at which it
  is consulted (`SyncEnv.shouldCancel`);
* `utc_now_iso()` is a `now : String` parameter; the persisted state file
  (`.archive_sync_state.json`) is modelled as an explicit `SyncState`
  record passed in (the `load_json` at the head of each operation) and
  returned (the `save_json` at its end).

Deliberate simplifications, none load-bearing for the claims below:
progress callbacks are omitted (they do not affect any returned value),
`urlparse`/`urlunparse` round-tripping is modelled by keeping URLs in
parsed component form (`Url`), and Python string values of wrong dynamic
type in manifest rows (e.g. a numeric `path`) are out of scope for the
structured layer.
-/

namespace ArchiveSync

/-! ## ASCII string helpers (models of the Python `str` methods used) -/

/-- Model of `str.lower` for ASCII letters (the only characters that occur
in the relative paths and hex digests the engine lowercases). -/
def lowerChar (c : Char) : Char :=
  if 'A' ≤ c ∧ c ≤ 'Z' then Char.ofNat (c.toNat + 32) else c

/-- `s.lower()`. -/
def strLower (s : String) : String := ⟨s.data.map lowerChar⟩

/-- Helper for `splitSegs`: split a character list at every slash. -/
def splitSegsAux : List Char → List Char → List String
  | [], cur => [⟨cur.reverse⟩]
  | c :: rest, cur =>
    if c = '/' then ⟨cur.reverse⟩ :: splitSegsAux rest []
    else splitSegsAux rest (c :: cur)

/-- `s.split("/")`: the segments of a relative path string. -/
def splitSegs (s : String) : List String := splitSegsAux s.data []

/-- `s.replace("\x5c", "/")`: normalise backslash separators to slashes. -/
def slashify (s : String) : String :=
  ⟨s.data.map (fun c => if c = '\x5c' then '/' else c)⟩

/-- `s.strip()` restricted to space characters (version tokens contain no
other whitespace). -/
def strTrim (s : String) : String :=
  ⟨((s.data.dropWhile (fun c => c = ' ')).reverse.dropWhile (fun c => c = ' ')).reverse⟩

/-! ## Paths and the local tree -/

/-- A resolved absolute path, as its list of segments. -/
abbrev AbsPath := List String

/-- Append one relative segment to an absolute path the way `Path.resolve()`
normalises it: empty and dot segments vanish, a dot-dot segment pops the
last component (staying put at the root), anything else is appended. -/
def normSegs : AbsPath → List String → AbsPath
  | acc, [] => acc
  | acc, seg :: rest =>
    if seg = "" || seg = "." then normSegs acc rest
    else if seg = ".." then normSegs acc.dropLast rest
    else normSegs (acc ++ [seg]) rest

/-- Model of `(archive_root / rel).resolve()`. The archive root is assumed
to be an already-resolved absolute path. -/
def resolvePath (root : AbsPath) (rel : String) : AbsPath :=
  normSegs root (splitSegs rel)

/-- Model of `Path(rel).name` for slash-separated relative paths: the last
non-empty segment. -/
def pathName (rel : String) : String :=
  (((splitSegs rel).filter (fun seg => seg ≠ "")).getLast?).getD ""

/-- The last segment of a resolved path (`dst.name`). -/
def lastSeg (p : AbsPath) : String := p.getLast?.getD ""

/-- The two observations the engine makes of a local file's content:
`sha256_file(path)` and `path.stat().st_size`. -/
structure FileData where
  sha256Hex : String
  byteLen : Nat
deriving DecidableEq, Repr

/-- The local tree: each resolved absolute path holds at most one regular
file. -/
abbrev FS := AbsPath → Option FileData

/-! ## Wire-level JSON model (input of `validate_manifest`) -/

/-- A parsed JSON value, as produced by `json.loads`. -/
inductive JVal where
  | jnull : JVal
  | jbool (b : Bool) : JVal
  | jnum (n : Int) : JVal
  | jstr (s : String) : JVal
  | jarr (elems : List JVal) : JVal
  | jobj (fields : List (String × JVal)) : JVal

/-- `dict.get`: `json.loads` keeps the last occurrence of a duplicated
key, so the lookup prefers later fields. -/
def jGet : List (String × JVal) → String → Option JVal
  | [], _ => none
  | (k, v) :: rest, key =>
    match jGet rest key with
    | some v' => some v'
    | none => if k = key then some v else none

/-- Python truthiness of the result of a `dict.get` on a parsed JSON
document (`None`, `False`, `0`, `""`, `[]`, `{}` are falsy). -/
def pyTruthy : Option JVal → Bool
  | none => false
  | some .jnull => false
  | some (.jbool b) => b
  | some (.jnum n) => n != 0
  | some (.jstr s) => s != ""
  | some (.jarr xs) => !xs.isEmpty
  | some (.jobj kvs) => !kvs.isEmpty

/-- The per-row loop of `validate_manifest`: first failure message, if
any. (Quote characters are dropped from the message literals.) -/
def validateFileRows : List JVal → Option String
  | [] => none
  | row :: rest =>
    match row with
    | .jobj kvs =>
      if !pyTruthy (jGet kvs "path") then
        some "Each manifest file entry needs path"
      else if !pyTruthy (jGet kvs "url") && !pyTruthy (jGet kvs "folder_url") then
        some "Each manifest file entry needs either url or folder_url"
      else validateFileRows rest
    | _ => some "Manifest file entry is invalid"

/-- `validate_manifest(manifest) -> (bool, str)`. -/
def validate_manifest (manifest : JVal) : Bool × String :=
  match manifest with
  | .jobj kvs =>
    match jGet kvs "files" with
    | some (.jarr files) =>
      (match validateFileRows files with
       | some msg => (false, msg)
       | none =>
         match jGet kvs "deleted" with
         | none => (true, "ok")
         | some .jnull => (true, "ok")
         | some (.jarr _) => (true, "ok")
         | some _ => (false, "Manifest deleted must be an array"))
    | _ => (false, "Manifest must include a files array")
  | _ => (false, "Manifest is not a JSON object")

/-! ## Structured manifest model (the dictionary rows as the engine reads
them) -/

/-- A parsed URL in `urlparse` component form. `add_cache_buster` parses,
edits the query pair list, and unparses; the model keeps URLs parsed. -/
structure Url where
  scheme : String := ""
  netloc : String := ""
  path : String := ""
  params : String := ""
  query : List (String × String) := []
  fragment : String := ""
deriving DecidableEq, Repr

/-- One `files` row, with exactly the keys the engine reads. `url` and
`folder_url` are `none` when the key is absent or its stripped string value
is empty (the code treats both alike); `sha256` of `none` models an absent
key, `some ""` a present-but-empty one (also treated as absent by the
code's truthiness test). -/
structure Entry where
  path : String
  size : Option Int := none
  sha256 : Option String := none
  url : Option Url := none
  folder_url : Option String := none
deriving DecidableEq, Repr

/-- The manifest as the diff and transfer layers read it. A JSON-null
`archive_version` is collapsed to `none`. -/
structure Manifest where
  archive_version : Option String := none
  files : List Entry := []
  deleted : List String := []
deriving DecidableEq, Repr

/-- `str(v) for string v` / absent key, reading a JSON field as a string. -/
def asString : JVal → Option String
  | .jstr s => some s
  | _ => none

/-- Reading a JSON field as an integer (`int(expected_size)`). -/
def asInt : JVal → Option Int
  | .jnum n => some n
  | _ => none

/-- Bridge from a wire-level `files` row to the structured `Entry`,
collecting the key reads the code performs on the row. The URL fields are
not populated here: the diff never reads them, and the transfer model
receives structured entries directly. -/
def entryOfJ (row : JVal) : Entry :=
  match row with
  | .jobj kvs =>
    { path := ((jGet kvs "path").bind asString).getD ""
      size := (jGet kvs "size").bind asInt
      sha256 := (jGet kvs "sha256").bind asString
      url := none
      folder_url := (jGet kvs "folder_url").bind asString }
  | _ => { path := "" }

/-- Bridge from the wire document to the structured manifest. -/
def manifestOfJ (doc : JVal) : Manifest :=
  match doc with
  | .jobj kvs =>
    { archive_version := (jGet kvs "archive_version").bind asString
      files :=
        (match jGet kvs "files" with
         | some (.jarr rows) => rows.map entryOfJ
         | _ => [])
      deleted :=
        (match jGet kvs "deleted" with
         | some (.jarr ds) => ds.filterMap asString
         | _ => []) }
  | _ => {}

/-! ## Diff engine (`compute_pending_changes`) -/

/-- Truthiness of `row.get("sha256")`. -/
def shaGiven : Option String → Bool
  | none => false
  | some s => s != ""

/-- The `elif expected_size is not None` branch: byte-length comparison,
or vacuously true when no size is given. -/
def sizeOk (expected : Option Int) (fd : FileData) : Bool :=
  match expected with
  | some n => ((fd.byteLen : Int) == n)
  | none => true

/-- Staleness check for an existing local file, mirroring the branch order
of the code: a truthy `sha256` is compared case-insensitively and is
authoritative; otherwise a present `size` decides; otherwise the file
counts as up to date. -/
def fileMatches (row : Entry) (fd : FileData) : Bool :=
  if shaGiven row.sha256 then
    strLower fd.sha256Hex == strLower (row.sha256.getD "")
  else sizeOk row.size fd

/-- `local_ok` for one row: the resolved local path exists as a regular
file and passes `fileMatches`. -/
def localOk (fs : FS) (root : AbsPath) (row : Entry) : Bool :=
  match fs (resolvePath root row.path) with
  | none => false
  | some fd => fileMatches row fd

/-- The pending change set returned by `compute_pending_changes`. -/
structure Pending where
  to_download : List Entry := []
  to_delete : List String := []
  download_count : Nat := 0
  delete_count : Nat := 0
deriving DecidableEq, Repr

/-- `compute_pending_changes(archive_root, manifest)`: schedule every row
whose local file is missing or stale, and every `deleted` path whose local
file currently exists. -/
def compute_pending_changes (root : AbsPath) (manifest : Manifest) (fs : FS) : Pending :=
  let dl := manifest.files.filter (fun row => !localOk fs root row)
  let del := manifest.deleted.filter (fun rel => (fs (resolvePath root rel)).isSome)
  { to_download := dl
    to_delete := del
    download_count := dl.length
    delete_count := del.length }

/-! ## Cache busting -/

/-- `add_cache_buster(url, token)`: an empty token returns the URL
unchanged; otherwise every existing `v` query pair is dropped and a single
`("v", token)` pair is appended, all other components untouched. -/
def add_cache_buster (url : Url) (token : String) : Url :=
  if token = "" then url
  else { url with query := (url.query.filter (fun kv => kv.1 ≠ "v")) ++ [("v", token)] }

/-- `str(manifest.get("archive_version", "")).strip()`. -/
def cacheToken (m : Manifest) : String :=
  strTrim (m.archive_version.getD "")

/-! ## Transfer executor (`sync_updates`) -/

/-- Outcome of one `_download_file` call: the file data that ends up on
disk, or the message of the exception raised. A failed call leaves the
destination untouched (the connection is opened before the file). -/
inductive DlResult where
  | ok (fd : FileData) : DlResult
  | err (msg : String) : DlResult
deriving DecidableEq, Repr

/-- The effectful collaborators of one transfer pass, supplied as oracles:
the network, the pCloud link resolver, the per-iteration value of the
cancellation predicate, and OS-level `unlink` failures (an `unlink` with
`missing_ok=True` raises only for OS-level reasons, never for absence). -/
structure SyncEnv where
  net : Url → DlResult
  resolver : String → String → Except String Url := fun _ _ => .error "unresolved"
  shouldCancel : Nat → Bool := fun _ => false
  delFail : AbsPath → Option String := fun _ => none

/-- The mutable loop state of the download loop. -/
structure LoopSt where
  downloaded : Nat := 0
  errors : List String := []
  warnings : List String := []
  fs : FS
  cache : List (String × String × Url) := []
  cancelled : Bool := false

/-- Lookup in the per-pass `folder_url_cache`, keyed by folder URL and
target file name. -/
def cacheLookup : List (String × String × Url) → String → String → Option Url
  | [], _, _ => none
  | (f, n, u) :: rest, f0, n0 =>
    if f == f0 && n == n0 then some u else cacheLookup rest f0 n0

/-- The URL-selection steps of one loop body: a direct `url` wins;
otherwise a `folder_url` is resolved through the cache and the resolver;
otherwise the `ValueError` the code raises. Errors are the exception
messages later wrapped by the loop's handler. -/
def resolveItemUrl (env : SyncEnv) (row : Entry) (targetName : String)
    (cache : List (String × String × Url)) :
    Except String (Url × List (String × String × Url)) :=
  match row.url with
  | some u => .ok (u, cache)
  | none =>
    match row.folder_url with
    | some f =>
      match cacheLookup cache f targetName with
      | some u => .ok (u, cache)
      | none =>
        match env.resolver f targetName with
        | .ok u => .ok (u, (f, targetName, u) :: cache)
        | .error e => .error e
    | none => .error s!"No download URL available for {row.path}"

/-- One body of the download loop (the cancellation check excluded): pick
a URL, download to the resolved destination, then verify the checksum when
the row carries one. A tolerated mismatch keeps the file and records a
warning; an untolerated one records one error and unlinks the file; any
earlier failure records one wrapped error. -/
def processOne (env : SyncEnv) (root : AbsPath) (token : String)
    (allowedNorm : List String) (row : Entry) (st : LoopSt) : LoopSt :=
  let rel := row.path
  let dst := resolvePath root rel
  match resolveItemUrl env row (lastSeg dst) st.cache with
  | .error e => { st with errors := st.errors ++ [s!"Download failed for {rel}: {e}"] }
  | .ok (u, cache1) =>
    match env.net (add_cache_buster u token) with
    | .err e =>
      { st with cache := cache1, errors := st.errors ++ [s!"Download failed for {rel}: {e}"] }
    | .ok fd =>
      let written : FS := fun p => if p = dst then some fd else st.fs p
      if shaGiven row.sha256 then
        let expected := row.sha256.getD ""
        let got := fd.sha256Hex
        if strLower got != strLower expected then
          if allowedNorm.contains (strLower (slashify rel))
              || allowedNorm.contains (strLower (pathName rel)) then
            { st with
              cache := cache1,
              fs := written,
              downloaded := st.downloaded + 1,
              warnings := st.warnings ++
                [s!"Checksum mismatch tolerated for {rel} (expected {expected}, got {got})"] }
          else
            { st with
              cache := cache1,
              errors := st.errors ++
                [s!"Checksum mismatch after download: {rel} (expected {expected}, got {got})"],
              fs := fun p => if p = dst then none else st.fs p }
        else
          { st with cache := cache1, fs := written, downloaded := st.downloaded + 1 }
      else
        { st with cache := cache1, fs := written, downloaded := st.downloaded + 1 }

/-- The download loop: before each item the cancellation predicate is
consulted (`idx` is the 1-based iteration); a positive answer breaks the
loop with `cancelled` set and everything else as accumulated so far. -/
def runDownloads (env : SyncEnv) (root : AbsPath) (token : String)
    (allowedNorm : List String) : Nat → List Entry → LoopSt → LoopSt
  | _, [], st => st
  | idx, row :: rest, st =>
    if env.shouldCancel idx then { st with cancelled := true }
    else runDownloads env root token allowedNorm (idx + 1) rest
      (processOne env root token allowedNorm row st)

/-- The deletion loop: `unlink(missing_ok=True)` never raises for an
absent file, so a path only contributes an error when the OS oracle says
the call failed; every non-failing call increments `removed`, whether or
not a file existed. Returns (removed, errors, tree). -/
def runDeletes (env : SyncEnv) (root : AbsPath) :
    List String → Nat → List String → FS → Nat × List String × FS
  | [], removed, errors, fs => (removed, errors, fs)
  | rel :: rest, removed, errors, fs =>
    match env.delFail (resolvePath root rel) with
    | some e =>
      runDeletes env root rest removed (errors ++ [s!"Could not delete {rel}: {e}"]) fs
    | none =>
      runDeletes env root rest (removed + 1) errors
        (fun q => if q = resolvePath root rel then none else fs q)

/-- The deletion phase of a pass: runs only when removal is enabled. -/
def syncDeletePhase (env : SyncEnv) (root : AbsPath) (remove_deleted : Bool)
    (to_delete : List String) (st : LoopSt) : Nat × List String × FS :=
  if remove_deleted then runDeletes env root to_delete 0 st.errors st.fs
  else (0, st.errors, st.fs)

/-- The persisted sync state record (`.archive_sync_state.json`); `none`
fields model absent keys, and `last_manifest_version`'s inner option
models the stored JSON value (which is null when the manifest has no
version). -/
structure SyncState where
  last_check_utc : Option String := none
  last_manifest_version : Option (Option String) := none
  last_success_sync_utc : Option String := none
  last_sync_error_count : Option Nat := none
deriving DecidableEq, Repr

/-- The state written at the end of a pass: the success markers are set
only when the pass recorded zero errors, the error count always. -/
def finalState (prior : SyncState) (m : Manifest) (now : String)
    (errors : List String) : SyncState :=
  let base :=
    if errors.isEmpty then
      { prior with last_success_sync_utc := some now,
                   last_manifest_version := some m.archive_version }
    else prior
  { base with last_sync_error_count := some errors.length }

/-- The result dictionary of `sync_updates`, together with the resulting
local tree (the engine's only mutation target). -/
structure SyncOutcome where
  ok : Bool
  cancelled : Bool
  downloaded : Nat
  removed : Nat
  errors : List String
  warnings : List String
  state : SyncState
  fs : FS

/-- The normalised allow-list
(`{str(x).replace("\x5c", "/").lower() for x in allow_mismatch_paths}`). -/
def normAllow (allow : List String) : List String :=
  allow.map (fun x => strLower (slashify x))

/-- `sync_updates(archive_root, manifest, pending, remove_deleted, ...)`:
the download loop over `pending["to_download"]`, the optional deletion
phase over `pending["to_delete"]`, then the state-store update. `fs` is
the local tree at entry, `prior` the state loaded from disk, `now` the
value of `utc_now_iso()`. -/
def sync_updates (root : AbsPath) (manifest : Manifest) (pending : Pending)
    (remove_deleted : Bool) (allow_mismatch_paths : List String) (env : SyncEnv)
    (fs : FS) (prior : SyncState) (now : String) : SyncOutcome :=
  let st1 := runDownloads env root (cacheToken manifest) (normAllow allow_mismatch_paths)
    1 pending.to_download
    { downloaded := 0, errors := [], warnings := [], fs := fs, cache := [], cancelled := false }
  let del := syncDeletePhase env root remove_deleted pending.to_delete st1
  { ok := del.2.1.isEmpty && !st1.cancelled
    cancelled := st1.cancelled
    downloaded := st1.downloaded
    removed := del.1
    errors := del.2.1
    warnings := st1.warnings
    state := finalState prior manifest now del.2.1
    fs := del.2.2 }

/-! ## Manifest fetcher (`check_updates`) -/

/-- Classified outcome of `fetch_json_url`: `urllib` wraps network-level
failures (connection refused, DNS failure, a timeout while opening) in
`URLError`; any other exception (e.g. `json.JSONDecodeError` on a
reachable but malformed body) falls to the generic handler. -/
inductive FetchOutcome where
  | urlError (msg : String) : FetchOutcome
  | otherError (msg : String) : FetchOutcome
  | fetched (doc : JVal) : FetchOutcome

/-- The result dictionary of `check_updates`. -/
structure CheckResult where
  ok : Bool
  offline : Bool
  error : Option String := none
  manifest : Option Manifest := none
  pending : Option Pending := none
  state : SyncState
deriving DecidableEq, Repr

/-- `check_updates(archive_root, manifest_url)`: classify fetch failures,
validate, diff, and on success stamp the check time and the manifest's
version token into the state store. The second component is the state as
persisted on disk after the call (the failure branches return before
`save_json`, leaving the stored state at `prior`). -/
def check_updates (root : AbsPath) (fs : FS) (outcome : FetchOutcome)
    (prior : SyncState) (now : String) : CheckResult × SyncState :=
  match outcome with
  | .urlError e =>
    ({ ok := false, offline := true, error := some e, state := prior }, prior)
  | .otherError e =>
    ({ ok := false, offline := false, error := some e, state := prior }, prior)
  | .fetched doc =>
    let v := validate_manifest doc
    if v.1 then
      let m := manifestOfJ doc
      let pending := compute_pending_changes root m fs
      let st := { prior with last_check_utc := some now,
                             last_manifest_version := some m.archive_version }
      ({ ok := true, offline := false, manifest := some m, pending := some pending,
         state := st }, st)
    else
      ({ ok := false, offline := false, error := some v.2, state := prior }, prior)

/-! ## Claim-side and amendment-side predicates -/

/-- The acceptance condition exactly as claim C6 words it: every file
entry needs a non-empty `path` and at least one of `url` / `folder_handle`
(the claim names `folder_handle` as the wire key), and `deleted`, if
present, must be a sequence of strings. -/
def claimC6Accepts (manifest : JVal) : Bool :=
  match manifest with
  | .jobj kvs =>
    (match jGet kvs "files" with
     | some (.jarr files) =>
       files.all (fun row =>
         match row with
         | .jobj rkvs =>
           pyTruthy (jGet rkvs "path") &&
             (pyTruthy (jGet rkvs "url") || pyTruthy (jGet rkvs "folder_handle"))
         | _ => false)
     | _ => false)
    &&
    (match jGet kvs "deleted" with
     | none => true
     | some (.jarr ds) => ds.all (fun d => match d with | .jstr _ => true | _ => false)
     | some _ => false)
  | _ => false

/-- The acceptance condition `validate_manifest` actually decides: keyed
object, `files` a sequence, every entry a keyed object with truthy `path`
and truthy `url` or `folder_url` (the wire key), and `deleted`, if
present, a sequence or null - its element types are not checked. -/
def amendedC6Accepts (manifest : JVal) : Bool :=
  match manifest with
  | .jobj kvs =>
    (match jGet kvs "files" with
     | some (.jarr files) =>
       files.all (fun row =>
         match row with
         | .jobj rkvs =>
           pyTruthy (jGet rkvs "path") &&
             (pyTruthy (jGet rkvs "url") || pyTruthy (jGet rkvs "folder_url"))
         | _ => false)
     | _ => false)
    &&
    (match jGet kvs "deleted" with
     | none => true
     | some .jnull => true
     | some (.jarr _) => true
     | some _ => false)
  | _ => false

/-- Applying the scheduled downloads of a pending set to the tree, a
`contentOf` oracle supplying the file data a successful verified download
of each entry leaves on disk. -/
def applyDownloads (root : AbsPath) (contentOf : Entry → FileData)
    (rows : List Entry) (fs : FS) : FS :=
  rows.foldl (fun acc row =>
    fun p => if p = resolvePath root row.path then some (contentOf row) else acc p) fs

/-- Applying the scheduled deletions of a pending set to the tree. -/
def applyDeletes (root : AbsPath) (dels : List String) (fs : FS) : FS :=
  dels.foldl (fun acc rel =>
    fun p => if p = resolvePath root rel then none else acc p) fs

/-- The tree after a transfer pass that applied every pending change:
downloads written, then deletions performed. -/
def applyPending (root : AbsPath) (pending : Pending) (contentOf : Entry → FileData)
    (fs : FS) : FS :=
  applyDeletes root pending.to_delete (applyDownloads root contentOf pending.to_download fs)

/-! ## Concrete fixtures used by the evaluations below -/

/-- A concrete archive root, `/home/user/Archive`. -/
def root0 : AbsPath := ["home", "user", "Archive"]

/-- An empty local tree. -/
def fsEmpty : FS := fun _ => none

/-- A manifest row whose relative path climbs out of the archive root. -/
def evilEntry : Entry :=
  { path := "../evil.bin", sha256 := some "aa", url := some { path := "/e" } }

/-- A manifest carrying only the traversal row. -/
def evilManifest : Manifest := { archive_version := some "1", files := [evilEntry] }

/-- A network that always delivers a file hashing to `aa`. -/
def okAaEnv : SyncEnv := { net := fun _ => .ok ⟨"aa", 1⟩ }

/-- Three direct-URL rows for the partial-failure scenario. -/
def entry1 : Entry := { path := "f1.bin", sha256 := some "11", url := some { path := "/f1" } }

/-- Second scenario row; the network will deliver mismatching content for it. -/
def entry2 : Entry := { path := "f2.bin", sha256 := some "22", url := some { path := "/f2" } }

/-- Third scenario row, after the mismatching one. -/
def entry3 : Entry := { path := "f3.bin", sha256 := some "33", url := some { path := "/f3" } }

/-- A network delivering correct content for items 1 and 3 and wrong
content (digest `aa` instead of `22`) for item 2. -/
def scenarioEnv : SyncEnv :=
  { net := fun u =>
      if u.path = "/f1" then .ok ⟨"11", 1⟩
      else if u.path = "/f2" then .ok ⟨"aa", 1⟩
      else .ok ⟨"33", 1⟩ }

/-- The manifest of the three-item scenario. -/
def scenarioManifest : Manifest := { archive_version := some "v1", files := [entry1, entry2, entry3] }

/-- The three-item pass with an empty allow-list. -/
def mismatchPass : SyncOutcome :=
  sync_updates root0 scenarioManifest { to_download := [entry1, entry2, entry3] }
    false [] scenarioEnv fsEmpty {} "T"

/-- The three-item pass with item 2's file name allow-listed (in mixed
case, exercising the normalisation). -/
def toleratedPass : SyncOutcome :=
  sync_updates root0 scenarioManifest { to_download := [entry1, entry2, entry3] }
    false ["F2.bin"] scenarioEnv fsEmpty {} "T"

/-- A wire manifest document with version token `v2` and one valid row. -/
def wireDoc : JVal :=
  .jobj [("archive_version", .jstr "v2"),
    ("files", .jarr [.jobj [("path", .jstr "a.bin"), ("url", .jstr "https://h/a")]])]

/-- The state persisted by a successful `check_updates` against `wireDoc`,
starting from empty state. -/
def storedAfterCheck : SyncState :=
  (check_updates root0 fsEmpty (.fetched wireDoc) {} "T1").2

/-- A network on which every download raises. -/
def failNet : SyncEnv := { net := fun _ => .err "timeout" }

/-- The structured row matching `wireDoc`'s single file entry. -/
def aEntry : Entry := { path := "a.bin", sha256 := some "aa", url := some { path := "/a" } }

/-- A transfer pass against the `v2` manifest in which the only download
fails, run on the state `check_updates` just persisted. -/
def failedPass : SyncOutcome :=
  sync_updates root0 { archive_version := some "v2", files := [aEntry] }
    { to_download := [aEntry] } false [] failNet fsEmpty storedAfterCheck "T2"

/-- A removal-enabled pass whose only scheduled deletion names a path that
is absent from the (empty) tree. -/
def absentDeletePass : SyncOutcome :=
  sync_updates root0 { archive_version := some "v1" } { to_delete := ["gone.bin"] }
    true [] okAaEnv fsEmpty {} "T"

/-- The scenario environment with a cancellation predicate that is already
true at the first check. -/
def cancelEnv : SyncEnv := { net := scenarioEnv.net, shouldCancel := fun _ => true }

/-- A pass cancelled before its first item. -/
def cancelledPass : SyncOutcome :=
  sync_updates root0 scenarioManifest { to_download := [entry1, entry2, entry3] }
    false [] cancelEnv fsEmpty {} "T"

/-- A wire document whose single row carries `folder_handle` (the key the
claim names) instead of the `folder_url` key the code checks. -/
def handleDoc : JVal :=
  .jobj [("files", .jarr [.jobj [("path", .jstr "a"), ("folder_handle", .jstr "h")]])]

/-- A wire document whose `deleted` array holds a non-string element. -/
def numDeletedDoc : JVal :=
  .jobj [("files", .jarr []), ("deleted", .jarr [.jnum 3])]

/-- A URL that already carries a `v` query parameter among others. -/
def busterUrl : Url :=
  { scheme := "https", netloc := "host", path := "/d/x",
    query := [("a", "1"), ("v", "old"), ("b", "2")], fragment := "frag" }

/-- A manifest without a version token. -/
def noVersionManifest : Manifest := { files := [entry1] }

/-- Manifest for the apply-then-rediff witness: one stale file and one
existing deleted path. -/
def applyManifest : Manifest := { files := [entry1], deleted := ["old.bin"] }

/-- Tree for the apply-then-rediff witness: `old.bin` exists, `f1.bin`
does not. -/
def applyFs : FS :=
  fun p => if p = ["home", "user", "Archive", "old.bin"] then some ⟨"xx", 5⟩ else none

/-- Download contents for the apply-then-rediff witness. -/
def applyContent : Entry → FileData := fun _ => ⟨"11", 3⟩

/-- A tree holding a file at `/home/user/evil.bin`, outside the archive
root `/home/user/Archive`. -/
def outsideFs : FS :=
  fun p => if p = ["home", "user", "evil.bin"] then some ⟨"zz", 1⟩ else none

/-- A manifest whose `deleted` list names a traversal path. -/
def traversalDeleteManifest : Manifest :=
  { archive_version := some "1", deleted := ["../evil.bin"] }

/-- A tree holding `f1.bin` with digest `11` and byte length 7. -/
def sizedFs : FS :=
  fun p => if p = ["home", "user", "Archive", "f1.bin"] then some ⟨"11", 7⟩ else none

/-- A row carrying only a size, no checksum. -/
def sizeOnlyEntry : Entry := { path := "f1.bin", size := some 7, url := some { path := "/f1" } }

/-- A row carrying neither checksum nor size. -/
def bareEntry : Entry := { path := "f1.bin", url := some { path := "/f1" } }

/-- A row whose size matches the local file but whose checksum does not. -/
def mismatchSizedEntry : Entry :=
  { path := "f1.bin", sha256 := some "22", size := some 7, url := some { path := "/f1" } }

/-- First of two identical diff runs against an unmodified tree. -/
def firstDiffRun : Pending := compute_pending_changes root0 { files := [entry1] } fsEmpty

/-- Second of two identical diff runs against an unmodified tree. -/
def secondDiffRun : Pending := compute_pending_changes root0 { files := [entry1] } fsEmpty

/-! ## Theorems -/

/-- The per-row loop of `validate_manifest` succeeds exactly when every
row is a keyed object with a truthy `path` and a truthy `url` or
`folder_url`. -/
theorem validateFileRows_none_iff (files : List JVal) :
    validateFileRows files = none ↔
      files.all (fun row =>
        match row with
        | .jobj rkvs =>
          pyTruthy (jGet rkvs "path") &&
            (pyTruthy (jGet rkvs "url") || pyTruthy (jGet rkvs "folder_url"))
        | _ => false) = true := by
  induction files with
  | nil => simp [validateFileRows]
  | cons row rest ih =>
    cases row with
    | jobj kvs =>
      simp only [validateFileRows, List.all_cons, Bool.and_eq_true]
      cases hp : pyTruthy (jGet kvs "path") with
      | false => simp [hp]
      | true =>
        cases hu : pyTruthy (jGet kvs "url") <;>
          cases hf : pyTruthy (jGet kvs "folder_url") <;>
            simp [hp, hu, hf, ih]
    | jnull => simp [validateFileRows]
    | jbool b => simp [validateFileRows]
    | jnum n => simp [validateFileRows]
    | jstr s => simp [validateFileRows]
    | jarr xs => simp [validateFileRows]

/-- Claim C1 (code bug evaluation): the diff engine resolves the
traversal row `../evil.bin` to `/home/user/evil.bin`, which is not under
the archive root, yet still schedules it for download; the transfer pass
then writes that outside path, and a traversal `deleted` entry whose
resolved target exists outside the root is likewise scheduled and
unlinked. The path-containment hardening the specification requires is
absent from the code. -/
theorem traversal_entry_scheduled_and_written_outside_root :
    (compute_pending_changes root0 evilManifest fsEmpty).to_download = [evilEntry] ∧
    resolvePath root0 evilEntry.path = ["home", "user", "evil.bin"] ∧
    ¬ (root0 <+: resolvePath root0 evilEntry.path) ∧
    (sync_updates root0 evilManifest { to_download := [evilEntry] } false [] okAaEnv
        fsEmpty {} "T").fs ["home", "user", "evil.bin"] = some ⟨"aa", 1⟩ ∧
    (compute_pending_changes root0 traversalDeleteManifest outsideFs).to_delete
      = ["../evil.bin"] ∧
    (sync_updates root0 traversalDeleteManifest { to_delete := ["../evil.bin"] } true []
        okAaEnv outsideFs {} "T").fs ["home", "user", "evil.bin"] = none := by
  decide

/-- Claim C6 (counterexample): the claim's acceptance condition and
`validate_manifest` disagree in both directions. A row carrying the
`folder_handle` key the claim names is rejected by the code (which checks
the `folder_url` wire key), and a `deleted` array with a non-string
element is accepted by the code though the claim requires a sequence of
strings. -/
theorem validate_manifest_disagrees_with_claimed_condition :
    claimC6Accepts handleDoc = true ∧
    (validate_manifest handleDoc).1 = false ∧
    (validate_manifest numDeletedDoc).1 = true ∧
    claimC6Accepts numDeletedDoc = false := by
  decide

/-- Claim C6 (amended): `validate_manifest` accepts a document exactly
when it is a keyed object whose `files` key holds a sequence of keyed
objects each with a truthy `path` and a truthy `url` or `folder_url` (the
wire key for the shared-folder reference), and whose `deleted` key, if
present, holds a sequence or null - element types unchecked. -/
theorem validate_manifest_accepts_iff (m : JVal) :
    (validate_manifest m).1 = amendedC6Accepts m := by
  cases m with
  | jobj kvs =>
    simp only [validate_manifest, amendedC6Accepts]
    cases hfiles : jGet kvs "files" with
    | none => rfl
    | some fv =>
      cases fv with
      | jarr files =>
        cases hv : validateFileRows files with
        | some msg =>
          have hall : ¬ (files.all (fun row =>
              match row with
              | .jobj rkvs =>
                pyTruthy (jGet rkvs "path") &&
                  (pyTruthy (jGet rkvs "url") || pyTruthy (jGet rkvs "folder_url"))
              | _ => false) = true) := by
            rw [← validateFileRows_none_iff]
            simp [hv]
          simp [hv, Bool.eq_false_iff.mpr hall]
        | none =>
          have hall := (validateFileRows_none_iff files).mp hv
          cases hdel : jGet kvs "deleted" with
          | none => simp [hall, hv]
          | some dv => cases dv <;> simp [hall, hv]
      | jnull => rfl
      | jbool b => rfl
      | jnum n => rfl
      | jstr s => rfl
      | jobj o => rfl
  | jnull => rfl
  | jbool b => rfl
  | jnum n => rfl
  | jstr s => rfl
  | jarr xs => rfl

/-- Claim C7 (counterexample): a manifest without a version token yields
an empty cache token, for which `add_cache_buster` returns the URL
unchanged - the prior `v=old` pair survives instead of being replaced, so
the fetched URL's `v` parameter does not equal the manifest's token. -/
theorem cache_buster_empty_token_keeps_url :
    cacheToken noVersionManifest = "" ∧
    add_cache_buster busterUrl (cacheToken noVersionManifest) = busterUrl ∧
    busterUrl.query.filter (fun kv => kv.1 = "v") = [("v", "old")] := by
  decide

/-- Claim C7 (amended): for every non-empty token, `add_cache_buster`
preserves scheme, host, path, params and fragment, drops every prior `v`
pair, appends a single `v = token` pair, and leaves all other query pairs
untouched. -/
theorem cache_buster_sets_v_for_nonempty_token (u : Url) (token : String)
    (h : token ≠ "") :
    (add_cache_buster u token).scheme = u.scheme ∧
    (add_cache_buster u token).netloc = u.netloc ∧
    (add_cache_buster u token).path = u.path ∧
    (add_cache_buster u token).params = u.params ∧
    (add_cache_buster u token).fragment = u.fragment ∧
    (add_cache_buster u token).query = u.query.filter (fun kv => kv.1 ≠ "v") ++ [("v", token)] ∧
    (add_cache_buster u token).query.filter (fun kv => kv.1 = "v") = [("v", token)] ∧
    (add_cache_buster u token).query.filter (fun kv => kv.1 ≠ "v")
      = u.query.filter (fun kv => kv.1 ≠ "v") := by
  simp only [add_cache_buster, if_neg h]
  refine ⟨trivial, trivial, trivial, trivial, trivial, trivial, ?_, ?_⟩
  · rw [List.filter_append, List.filter_filter]
    simp
  · rw [List.filter_append, List.filter_filter]
    simp

/-- Concrete instantiation of the amended cache-buster theorem at a URL
already carrying `v=old` and the token `v2`. -/
theorem cache_buster_sets_v_witness :
    ("v2" : String) ≠ "" ∧
    ((add_cache_buster busterUrl "v2").scheme = busterUrl.scheme ∧
     (add_cache_buster busterUrl "v2").netloc = busterUrl.netloc ∧
     (add_cache_buster busterUrl "v2").path = busterUrl.path ∧
     (add_cache_buster busterUrl "v2").params = busterUrl.params ∧
     (add_cache_buster busterUrl "v2").fragment = busterUrl.fragment ∧
     (add_cache_buster busterUrl "v2").query
       = busterUrl.query.filter (fun kv => kv.1 ≠ "v") ++ [("v", "v2")] ∧
     (add_cache_buster busterUrl "v2").query.filter (fun kv => kv.1 = "v") = [("v", "v2")] ∧
     (add_cache_buster busterUrl "v2").query.filter (fun kv => kv.1 ≠ "v")
       = busterUrl.query.filter (fun kv => kv.1 ≠ "v")) :=
  ⟨by decide, cache_buster_sets_v_for_nonempty_token busterUrl "v2" (by decide)⟩

/-- How `finalState` treats each field, by whether the pass recorded any
errors. -/
theorem finalState_fields (prior : SyncState) (m : Manifest) (now : String)
    (E : List String) :
    (E = [] →
      (finalState prior m now E).last_success_sync_utc = some now ∧
      (finalState prior m now E).last_manifest_version = some m.archive_version) ∧
    (E ≠ [] →
      (finalState prior m now E).last_success_sync_utc = prior.last_success_sync_utc ∧
      (finalState prior m now E).last_manifest_version = prior.last_manifest_version) ∧
    (finalState prior m now E).last_sync_error_count = some E.length := by
  by_cases h : E = []
  · subst h
    simp [finalState]
  · simp [finalState, h, List.isEmpty_iff]

/-- Claim C2 (counterexample): `check_updates` persists the manifest's
version token into `last_manifest_version` on every successful check,
before any transfer pass has run; a subsequent pass that fails leaves it
there, so the stored `last_manifest_version` equals the manifest's version
even though the tree is not fully synced. Only `last_success_sync_utc`
(still absent here) records the difference. -/
theorem version_marker_stored_without_zero_error_pass :
    storedAfterCheck.last_manifest_version = some (some "v2") ∧
    failedPass.errors ≠ [] ∧
    failedPass.state.last_manifest_version = some (some "v2") ∧
    failedPass.state.last_success_sync_utc = none := by
  decide

/-- Claim C2 (amended): within `sync_updates` the success markers
`last_success_sync_utc` and `last_manifest_version` are advanced exactly
when the pass recorded zero errors, and the error count is always
recorded; the version comparison alone does not distinguish outcomes
because `check_updates` also stores the version (see the counterexample). -/
theorem sync_markers_gated_on_zero_errors (root : AbsPath) (m : Manifest)
    (pending : Pending) (rd : Bool) (allow : List String) (env : SyncEnv) (fs : FS)
    (prior : SyncState) (now : String) :
    ((sync_updates root m pending rd allow env fs prior now).errors = [] →
      (sync_updates root m pending rd allow env fs prior now).state.last_success_sync_utc
        = some now ∧
      (sync_updates root m pending rd allow env fs prior now).state.last_manifest_version
        = some m.archive_version) ∧
    ((sync_updates root m pending rd allow env fs prior now).errors ≠ [] →
      (sync_updates root m pending rd allow env fs prior now).state.last_success_sync_utc
        = prior.last_success_sync_utc ∧
      (sync_updates root m pending rd allow env fs prior now).state.last_manifest_version
        = prior.last_manifest_version) ∧
    (sync_updates root m pending rd allow env fs prior now).state.last_sync_error_count
      = some (sync_updates root m pending rd allow env fs prior now).errors.length :=
  finalState_fields prior m now (sync_updates root m pending rd allow env fs prior now).errors

/-- Instantiations of the marker-gating theorem: a zero-error pass
advances both markers, an erroring pass leaves both at their prior
values. -/
theorem sync_markers_gated_witness :
    (toleratedPass.state.last_success_sync_utc = some "T" ∧
     toleratedPass.state.last_manifest_version = some (some "v1")) ∧
    (mismatchPass.state.last_success_sync_utc = ({} : SyncState).last_success_sync_utc ∧
     mismatchPass.state.last_manifest_version = ({} : SyncState).last_manifest_version) :=
  ⟨(sync_markers_gated_on_zero_errors root0 scenarioManifest
      { to_download := [entry1, entry2, entry3] } false ["F2.bin"] scenarioEnv fsEmpty
      {} "T").1 (by decide),
   (sync_markers_gated_on_zero_errors root0 scenarioManifest
      { to_download := [entry1, entry2, entry3] } false [] scenarioEnv fsEmpty
      {} "T").2.1 (by decide)⟩

/-- `runDeletes` increments `removed` once for every path whose `unlink`
call does not raise, whether or not a file was present. -/
theorem runDeletes_removed_eq (env : SyncEnv) (root : AbsPath) (ds : List String) :
    ∀ (removed : Nat) (errors : List String) (fs : FS),
      (runDeletes env root ds removed errors fs).1
        = removed
          + (ds.filter (fun rel => (env.delFail (resolvePath root rel)).isNone)).length := by
  induction ds with
  | nil => intro removed errors fs; simp [runDeletes]
  | cons rel rest ih =>
    intro removed errors fs
    cases h : env.delFail (resolvePath root rel) with
    | some msg => simp [runDeletes, h, ih, List.filter_cons]
    | none =>
      simp only [runDeletes, h, ih, List.filter_cons]
      simp [h]
      omega

/-- `runDeletes` appends one wrapped error message per failing `unlink`,
in order, and nothing else. -/
theorem runDeletes_errors_eq (env : SyncEnv) (root : AbsPath) (ds : List String) :
    ∀ (removed : Nat) (errors : List String) (fs : FS),
      (runDeletes env root ds removed errors fs).2.1
        = errors ++ ds.filterMap (fun rel =>
            (env.delFail (resolvePath root rel)).map
              (fun e => s!"Could not delete {rel}: {e}")) := by
  induction ds with
  | nil => intro removed errors fs; simp [runDeletes]
  | cons rel rest ih =>
    intro removed errors fs
    cases h : env.delFail (resolvePath root rel) with
    | some msg => simp [runDeletes, h, ih, List.filterMap_cons]
    | none => simp [runDeletes, h, ih, List.filterMap_cons]

/-- The deletion loop never creates a file. -/
theorem runDeletes_fs_none_preserved (env : SyncEnv) (root : AbsPath) (ds : List String) :
    ∀ (removed : Nat) (errors : List String) (fs : FS) (p : AbsPath), fs p = none →
      (runDeletes env root ds removed errors fs).2.2 p = none := by
  induction ds with
  | nil => intro removed errors fs p h; simpa [runDeletes] using h
  | cons rel rest ih =>
    intro removed errors fs p h
    cases hf : env.delFail (resolvePath root rel) with
    | some msg => simp only [runDeletes, hf]; exact ih _ _ _ _ h
    | none =>
      simp only [runDeletes, hf]
      refine ih _ _ _ _ ?_
      by_cases hp : p = resolvePath root rel <;> simp [hp, h]

/-- After the deletion loop, every scheduled path whose `unlink` did not
raise is absent. -/
theorem runDeletes_fs_deleted (env : SyncEnv) (root : AbsPath) (ds : List String) :
    ∀ (removed : Nat) (errors : List String) (fs : FS) (rel : String), rel ∈ ds →
      env.delFail (resolvePath root rel) = none →
      (runDeletes env root ds removed errors fs).2.2 (resolvePath root rel) = none := by
  induction ds with
  | nil => intro _ _ _ _ h; exact absurd h (List.not_mem_nil _)
  | cons d rest ih =>
    intro removed errors fs rel hmem hnone
    rcases List.mem_cons.mp hmem with heq | htail
    · subst heq
      simp only [runDeletes, hnone]
      exact runDeletes_fs_none_preserved env root rest _ _ _ _ (by simp)
    · cases hf : env.delFail (resolvePath root d) with
      | some msg => simp only [runDeletes, hf]; exact ih _ _ _ _ htail hnone
      | none => simp only [runDeletes, hf]; exact ih _ _ _ _ htail hnone

/-- Claim C3 (counterexample): with removal enabled and a scheduled path
that is absent from the tree, the pass records no error but still
increments `removed` - `unlink(missing_ok=True)` does not raise for a
missing file, and the counter is incremented unconditionally after it. -/
theorem absent_path_deletion_increments_removed :
    fsEmpty (resolvePath root0 "gone.bin") = none ∧
    absentDeletePass.removed = 1 ∧
    absentDeletePass.errors = [] := by
  decide

/-- Claim C3 (amended): in a removal-enabled pass, `removed` counts every
`to_delete` path whose `unlink` call did not raise - present or absent
alike - an already-absent path adds no error, each failing `unlink`
appends exactly one error without stopping the remaining deletions, and
every non-failing path is absent from the tree afterwards. -/
theorem deletion_phase_semantics (root : AbsPath) (m : Manifest) (ds : List String)
    (allow : List String) (env : SyncEnv) (fs : FS) (prior : SyncState) (now : String) :
    (sync_updates root m { to_delete := ds } true allow env fs prior now).removed
      = (ds.filter (fun rel => (env.delFail (resolvePath root rel)).isNone)).length ∧
    (sync_updates root m { to_delete := ds } true allow env fs prior now).errors
      = ds.filterMap (fun rel =>
          (env.delFail (resolvePath root rel)).map
            (fun e => s!"Could not delete {rel}: {e}")) ∧
    (∀ rel ∈ ds, env.delFail (resolvePath root rel) = none →
      (sync_updates root m { to_delete := ds } true allow env fs prior now).fs
        (resolvePath root rel) = none) := by
  refine ⟨?_, ?_, ?_⟩
  · show (runDeletes env root ds 0 [] fs).1 = _
    rw [runDeletes_removed_eq]
    simp
  · show (runDeletes env root ds 0 [] fs).2.1 = _
    rw [runDeletes_errors_eq]
    simp
  · intro rel hmem hnone
    show (runDeletes env root ds 0 [] fs).2.2 (resolvePath root rel) = none
    exact runDeletes_fs_deleted env root ds 0 [] fs rel hmem hnone

/-- Instantiation of the deletion-phase theorem at the absent-path pass:
the counter formula counts the non-failing absent path, and the path is
(still) absent afterwards. -/
theorem deletion_phase_semantics_witness :
    absentDeletePass.removed = 1 ∧
    absentDeletePass.fs (resolvePath root0 "gone.bin") = none :=
  ⟨((deletion_phase_semantics root0 { archive_version := some "v1" } ["gone.bin"] []
      okAaEnv fsEmpty {} "T").1).trans (by decide),
   (deletion_phase_semantics root0 { archive_version := some "v1" } ["gone.bin"] []
      okAaEnv fsEmpty {} "T").2.2 "gone.bin" (by decide) (by decide)⟩

/-- Claim C10: when the cancellation predicate stops the download loop
while no error has yet been recorded, and the deletions raise nothing,
the pass reports `cancelled = true` with an empty error list - and the
state store is nevertheless written with `last_success_sync_utc` and
`last_manifest_version` advanced exactly as for a completed zero-error
pass, so the persisted state cannot distinguish the two (only the
returned `ok` field, which is false, can). -/
theorem cancelled_clean_pass_still_advances_state (root : AbsPath) (m : Manifest)
    (pending : Pending) (rd : Bool) (allow : List String) (env : SyncEnv) (fs : FS)
    (prior : SyncState) (now : String)
    (hc : (runDownloads env root (cacheToken m) (normAllow allow) 1 pending.to_download
        { downloaded := 0, errors := [], warnings := [], fs := fs, cache := [],
          cancelled := false }).cancelled = true)
    (he : (runDownloads env root (cacheToken m) (normAllow allow) 1 pending.to_download
        { downloaded := 0, errors := [], warnings := [], fs := fs, cache := [],
          cancelled := false }).errors = [])
    (hd : ∀ rel ∈ pending.to_delete, env.delFail (resolvePath root rel) = none) :
    (sync_updates root m pending rd allow env fs prior now).cancelled = true ∧
    (sync_updates root m pending rd allow env fs prior now).errors = [] ∧
    (sync_updates root m pending rd allow env fs prior now).ok = false ∧
    (sync_updates root m pending rd allow env fs prior now).state
      = { prior with last_success_sync_utc := some now,
                     last_manifest_version := some m.archive_version,
                     last_sync_error_count := some 0 } := by
  have herr : (sync_updates root m pending rd allow env fs prior now).errors = [] := by
    show (syncDeletePhase env root rd pending.to_delete _).2.1 = []
    cases rd with
    | false => exact he
    | true =>
      show (runDeletes env root pending.to_delete 0 _ _).2.1 = []
      rw [runDeletes_errors_eq, he]
      simp only [List.nil_append]
      rw [List.filterMap_eq_nil_iff]
      intro rel hrel
      rw [hd rel hrel]
      rfl
  refine ⟨hc, herr, ?_, ?_⟩
  · show ((sync_updates root m pending rd allow env fs prior now).errors.isEmpty
        && !(runDownloads env root (cacheToken m) (normAllow allow) 1 pending.to_download
          { downloaded := 0, errors := [], warnings := [], fs := fs, cache := [],
            cancelled := false }).cancelled) = false
    rw [herr, hc]
    rfl
  · show finalState prior m now
        (sync_updates root m pending rd allow env fs prior now).errors
      = { prior with last_success_sync_utc := some now,
                     last_manifest_version := some m.archive_version,
                     last_sync_error_count := some 0 }
    rw [herr]
    rfl

/-- Instantiation of the cancelled-pass theorem: the predicate is true at
the first check, so the pass downloads nothing, yet the persisted state
matches a completed zero-error pass. -/
theorem cancelled_clean_pass_witness :
    cancelledPass.cancelled = true ∧
    cancelledPass.errors = [] ∧
    cancelledPass.ok = false ∧
    cancelledPass.state
      = { last_success_sync_utc := some "T",
          last_manifest_version := some (some "v1"),
          last_sync_error_count := some 0 } :=
  cancelled_clean_pass_still_advances_state root0 scenarioManifest
    { to_download := [entry1, entry2, entry3] } false [] cancelEnv fsEmpty {} "T"
    (by decide) (by decide) (by decide)

/-- Claim C4: a verified download whose digest mismatches is tolerated
(kept, counted, one warning) when the row's normalised path or file name
is allow-listed, and otherwise contributes exactly one error, has its file
unlinked and is not counted; either way the loop proceeds, so in the
three-item scenario where only item 2 mismatches the pass still fetches
item 3, reports two downloads and lists exactly one integrity error. -/
theorem checksum_mismatch_handling :
    (∀ (env : SyncEnv) (root : AbsPath) (token : String) (allowedNorm : List String)
        (row : Entry) (st : LoopSt) (u : Url) (fd : FileData) (s : String),
      row.url = some u →
      env.net (add_cache_buster u token) = .ok fd →
      row.sha256 = some s → s ≠ "" →
      (strLower fd.sha256Hex != strLower s) = true →
      (allowedNorm.contains (strLower (slashify row.path))
        || allowedNorm.contains (strLower (pathName row.path))) = true →
      processOne env root token allowedNorm row st
        = { st with
            fs := fun p => if p = resolvePath root row.path then some fd else st.fs p,
            downloaded := st.downloaded + 1,
            warnings := st.warnings ++
              [s!"Checksum mismatch tolerated for {row.path} (expected {s}, got {fd.sha256Hex})"] }) ∧
    (∀ (env : SyncEnv) (root : AbsPath) (token : String) (allowedNorm : List String)
        (row : Entry) (st : LoopSt) (u : Url) (fd : FileData) (s : String),
      row.url = some u →
      env.net (add_cache_buster u token) = .ok fd →
      row.sha256 = some s → s ≠ "" →
      (strLower fd.sha256Hex != strLower s) = true →
      (allowedNorm.contains (strLower (slashify row.path))
        || allowedNorm.contains (strLower (pathName row.path))) = false →
      processOne env root token allowedNorm row st
        = { st with
            errors := st.errors ++
              [s!"Checksum mismatch after download: {row.path} (expected {s}, got {fd.sha256Hex})"],
            fs := fun p => if p = resolvePath root row.path then none else st.fs p }) ∧
    (mismatchPass.downloaded = 2 ∧
     mismatchPass.errors.length = 1 ∧
     mismatchPass.warnings = [] ∧
     mismatchPass.fs (resolvePath root0 "f2.bin") = none ∧
     mismatchPass.fs (resolvePath root0 "f3.bin") = some ⟨"33", 1⟩) ∧
    (toleratedPass.downloaded = 3 ∧
     toleratedPass.errors = [] ∧
     toleratedPass.warnings.length = 1 ∧
     toleratedPass.fs (resolvePath root0 "f2.bin") = some ⟨"aa", 1⟩) := by
  refine ⟨?_, ?_, by decide, by decide⟩
  · intro env root token allowedNorm row st u fd s hu hnet hsha hne hmm hallow
    have hs : shaGiven (some s) = true := bne_iff_ne.mpr hne
    have hmem : strLower (slashify row.path) ∈ allowedNorm
        ∨ strLower (pathName row.path) ∈ allowedNorm := by
      simpa using hallow
    simp [processOne, resolveItemUrl, hu, hnet, hsha, hmm]
    rw [if_pos hs, if_pos hmem]
  · intro env root token allowedNorm row st u fd s hu hnet hsha hne hmm hallow
    have hs : shaGiven (some s) = true := bne_iff_ne.mpr hne
    have hmem : ¬ strLower (slashify row.path) ∈ allowedNorm
        ∧ ¬ strLower (pathName row.path) ∈ allowedNorm := by
      simpa using hallow
    simp [processOne, resolveItemUrl, hu, hnet, hsha, hmm]
    rw [if_pos hs, if_neg (fun hor => hor.elim hmem.1 hmem.2)]

/-- Instantiation of the mismatch dichotomy at the scenario's item 2,
allow-listed and not. -/
theorem checksum_mismatch_handling_witness :
    (processOne scenarioEnv root0 "v1" ["f2.bin"] entry2 { fs := fsEmpty }).downloaded = 1 ∧
    (processOne scenarioEnv root0 "v1" ["f2.bin"] entry2 { fs := fsEmpty }).warnings.length = 1 ∧
    (processOne scenarioEnv root0 "v1" [] entry2 { fs := fsEmpty }).downloaded = 0 ∧
    (processOne scenarioEnv root0 "v1" [] entry2 { fs := fsEmpty }).errors.length = 1 := by
  have hA := checksum_mismatch_handling.1 scenarioEnv root0 "v1" ["f2.bin"] entry2
    { fs := fsEmpty } { path := "/f2" } ⟨"aa", 1⟩ "22"
    (by decide) (by decide) (by decide) (by decide) (by decide) (by decide)
  have hB := checksum_mismatch_handling.2.1 scenarioEnv root0 "v1" [] entry2
    { fs := fsEmpty } { path := "/f2" } ⟨"aa", 1⟩ "22"
    (by decide) (by decide) (by decide) (by decide) (by decide) (by decide)
  rw [hA, hB]
  exact ⟨rfl, rfl, rfl, rfl⟩

/-- Claim C5: for an existing local file, a truthy manifest checksum is
authoritative - a case-insensitive digest match suppresses the download
whatever the sizes are, and a digest mismatch schedules it even when the
size matches; without a checksum a present size alone decides; with
neither the file counts as up to date. -/
theorem sha256_authoritative_over_size :
    (∀ (root : AbsPath) (fs : FS) (row : Entry) (s : String) (fd : FileData),
      row.sha256 = some s → s ≠ "" →
      fs (resolvePath root row.path) = some fd →
      strLower fd.sha256Hex = strLower s →
      (compute_pending_changes root { files := [row] } fs).to_download = []) ∧
    (∀ (root : AbsPath) (fs : FS) (row : Entry) (s : String) (n : Int) (fd : FileData),
      row.sha256 = some s → s ≠ "" →
      row.size = some n → (fd.byteLen : Int) = n →
      fs (resolvePath root row.path) = some fd →
      strLower fd.sha256Hex ≠ strLower s →
      (compute_pending_changes root { files := [row] } fs).to_download = [row]) ∧
    (∀ (root : AbsPath) (fs : FS) (row : Entry) (n : Int) (fd : FileData),
      shaGiven row.sha256 = false → row.size = some n →
      fs (resolvePath root row.path) = some fd →
      ((compute_pending_changes root { files := [row] } fs).to_download = []
        ↔ (fd.byteLen : Int) = n)) ∧
    (∀ (root : AbsPath) (fs : FS) (row : Entry) (fd : FileData),
      shaGiven row.sha256 = false → row.size = none →
      fs (resolvePath root row.path) = some fd →
      (compute_pending_changes root { files := [row] } fs).to_download = []) := by
  refine ⟨?_, ?_, ?_, ?_⟩
  · intro root fs row s fd hsha hne hfs hmatch
    simp [compute_pending_changes, localOk, fileMatches, hfs, hsha, hmatch]
    exact Or.inl (bne_iff_ne.mpr hne)
  · intro root fs row s n fd hsha hne hsize hlen hfs hmis
    simp [compute_pending_changes, localOk, fileMatches, hfs, hsha, hmis]
    intro hfalse
    exact absurd (by simpa [shaGiven] using hfalse) hne
  · intro root fs row n fd hg hsize hfs
    by_cases hn : (fd.byteLen : Int) = n
    · simp [compute_pending_changes, localOk, fileMatches, sizeOk, hfs, hg, hsize, hn]
    · simp [compute_pending_changes, localOk, fileMatches, sizeOk, hfs, hg, hsize, hn]
  · intro root fs row fd hg hsize hfs
    simp [compute_pending_changes, localOk, fileMatches, sizeOk, hfs, hg, hsize]

/-- Instantiations of the staleness rules on a local `f1.bin` with digest
`11` and length 7: digest match with a wrong manifest size suppresses the
download, digest mismatch with a matching size schedules it, a size-only
row compares lengths, a bare row counts as up to date. -/
theorem sha256_authoritative_witness :
    (compute_pending_changes root0
      { files := [{ path := "f1.bin", sha256 := some "11", size := some 999,
                    url := some { path := "/f1" } }] } sizedFs).to_download = [] ∧
    (compute_pending_changes root0 { files := [mismatchSizedEntry] } sizedFs).to_download
      = [mismatchSizedEntry] ∧
    ((compute_pending_changes root0 { files := [sizeOnlyEntry] } sizedFs).to_download = []
      ↔ ((7 : Nat) : Int) = (7 : Int)) ∧
    (compute_pending_changes root0 { files := [bareEntry] } sizedFs).to_download = [] :=
  ⟨sha256_authoritative_over_size.1 root0 sizedFs
      { path := "f1.bin", sha256 := some "11", size := some 999,
        url := some { path := "/f1" } } "11" ⟨"11", 7⟩
      (by decide) (by decide) (by decide) (by decide),
   sha256_authoritative_over_size.2.1 root0 sizedFs mismatchSizedEntry "22" 7 ⟨"11", 7⟩
      (by decide) (by decide) (by decide) (by decide) (by decide) (by decide),
   sha256_authoritative_over_size.2.2.1 root0 sizedFs sizeOnlyEntry 7 ⟨"11", 7⟩
      (by decide) (by decide) (by decide),
   sha256_authoritative_over_size.2.2.2 root0 sizedFs bareEntry ⟨"11", 7⟩
      (by decide) (by decide) (by decide)⟩

/-- Claim C8: `check_updates` returns rather than raises on every failure:
a network-level fetch failure (wrapped in `URLError` by the library -
connection refused, DNS failure, open timeout) yields `ok = false,
offline = true`; any other fetch exception (reachable but malformed JSON)
yields `ok = false, offline = false`; and a fetched document failing
validation yields `ok = false, offline = false` with the validation
message, the stored state untouched in all three cases. -/
theorem check_updates_failure_classification :
    (∀ (root : AbsPath) (fs : FS) (e : String) (prior : SyncState) (now : String),
      check_updates root fs (.urlError e) prior now
        = ({ ok := false, offline := true, error := some e, state := prior }, prior)) ∧
    (∀ (root : AbsPath) (fs : FS) (e : String) (prior : SyncState) (now : String),
      check_updates root fs (.otherError e) prior now
        = ({ ok := false, offline := false, error := some e, state := prior }, prior)) ∧
    (∀ (root : AbsPath) (fs : FS) (doc : JVal) (prior : SyncState) (now : String),
      (validate_manifest doc).1 = false →
      check_updates root fs (.fetched doc) prior now
        = ({ ok := false, offline := false, error := some (validate_manifest doc).2,
             state := prior }, prior)) := by
  refine ⟨fun _ _ _ _ _ => rfl, fun _ _ _ _ _ => rfl, ?_⟩
  intro root fs doc prior now h
  simp [check_updates, h]

/-- Instantiation of the failure classification: an unreachable host, a
JSON parse error, and a structurally invalid document. -/
theorem check_updates_failure_witness :
    check_updates root0 fsEmpty (.urlError "refused") {} "T"
      = ({ ok := false, offline := true, error := some "refused", state := {} }, {}) ∧
    check_updates root0 fsEmpty (.otherError "bad json") {} "T"
      = ({ ok := false, offline := false, error := some "bad json", state := {} }, {}) ∧
    check_updates root0 fsEmpty (.fetched .jnull) {} "T"
      = ({ ok := false, offline := false,
           error := some "Manifest is not a JSON object", state := {} }, {}) :=
  ⟨check_updates_failure_classification.1 root0 fsEmpty "refused" {} "T",
   check_updates_failure_classification.2.1 root0 fsEmpty "bad json" {} "T",
   check_updates_failure_classification.2.2 root0 fsEmpty .jnull {} "T" (by decide)⟩

/-- Claim C9 (counterexample): the diff is a pure read - it does not
modify the tree - so two runs against the same manifest and unmodified
tree return identical results; with a stale tree the second run's
`to_download` is the same non-empty list as the first run's, not empty. -/
theorem second_diff_run_not_empty :
    secondDiffRun = firstDiffRun ∧
    secondDiffRun.to_download = [entry1] ∧
    secondDiffRun.to_download ≠ [] := by
  decide

/-- `localOk` reads the tree only at the row's resolved path. -/
theorem localOk_congr (fs1 fs2 : FS) (root : AbsPath) (row : Entry)
    (h : fs1 (resolvePath root row.path) = fs2 (resolvePath root row.path)) :
    localOk fs1 root row = localOk fs2 root row := by
  simp [localOk, h]

/-- `applyDownloads` leaves untouched every path no scheduled row resolves
to. -/
theorem applyDownloads_apply_of_ne (root : AbsPath) (c : Entry → FileData)
    (rows : List Entry) :
    ∀ (fs : FS) (p : AbsPath), (∀ r ∈ rows, resolvePath root r.path ≠ p) →
      applyDownloads root c rows fs p = fs p := by
  induction rows with
  | nil => intro fs p _; rfl
  | cons r rest ih =>
    intro fs p h
    show applyDownloads root c rest _ p = fs p
    rw [ih _ p (fun x hx => h x (List.mem_cons_of_mem _ hx))]
    show (if p = resolvePath root r.path then some (c r) else fs p) = fs p
    rw [if_neg (Ne.symm (h r (List.mem_cons_self _ _)))]

/-- `applyDownloads` writes each scheduled row's content at its resolved
path, provided the scheduled rows resolve to pairwise distinct paths. -/
theorem applyDownloads_apply_of_mem (root : AbsPath) (c : Entry → FileData)
    (rows : List Entry) :
    ∀ (fs : FS) (row : Entry), row ∈ rows →
      (rows.map (fun r => resolvePath root r.path)).Nodup →
      applyDownloads root c rows fs (resolvePath root row.path) = some (c row) := by
  induction rows with
  | nil => intro fs row h _; exact absurd h (List.not_mem_nil _)
  | cons r rest ih =>
    intro fs row hmem hnd
    rw [List.map_cons, List.nodup_cons] at hnd
    obtain ⟨hnotin, hnd'⟩ := hnd
    rcases List.mem_cons.mp hmem with heq | htail
    · subst heq
      show applyDownloads root c rest _ (resolvePath root row.path) = some (c row)
      have hne : ∀ x ∈ rest, resolvePath root x.path ≠ resolvePath root row.path := by
        intro x hx hcontra
        exact hnotin (hcontra ▸ List.mem_map_of_mem _ hx)
      rw [applyDownloads_apply_of_ne root c rest _ _ hne]
      show (if resolvePath root row.path = resolvePath root row.path then some (c row)
          else fs _) = some (c row)
      rw [if_pos rfl]
    · exact ih _ row htail hnd'

/-- `applyDeletes` leaves untouched every path no scheduled deletion
resolves to. -/
theorem applyDeletes_apply_of_ne (root : AbsPath) (dels : List String) :
    ∀ (fs : FS) (p : AbsPath), (∀ d ∈ dels, resolvePath root d ≠ p) →
      applyDeletes root dels fs p = fs p := by
  induction dels with
  | nil => intro fs p _; rfl
  | cons e rest ih =>
    intro fs p h
    show applyDeletes root rest _ p = fs p
    rw [ih _ p (fun x hx => h x (List.mem_cons_of_mem _ hx))]
    show (if p = resolvePath root e then none else fs p) = fs p
    rw [if_neg (Ne.symm (h e (List.mem_cons_self _ _)))]

/-- `applyDeletes` never creates a file. -/
theorem applyDeletes_none_preserved (root : AbsPath) (dels : List String) :
    ∀ (fs : FS) (p : AbsPath), fs p = none → applyDeletes root dels fs p = none := by
  induction dels with
  | nil => intro fs p h; exact h
  | cons e rest ih =>
    intro fs p h
    show applyDeletes root rest _ p = none
    refine ih _ p ?_
    by_cases hp : p = resolvePath root e <;> simp [hp, h]

/-- Every path some scheduled deletion resolves to is absent after
`applyDeletes`. -/
theorem applyDeletes_apply_of_mem (root : AbsPath) (dels : List String) :
    ∀ (fs : FS) (p : AbsPath), (∃ d ∈ dels, resolvePath root d = p) →
      applyDeletes root dels fs p = none := by
  induction dels with
  | nil =>
    rintro fs p ⟨d, hd, _⟩
    exact absurd hd (List.not_mem_nil _)
  | cons e rest ih =>
    rintro fs p ⟨d, hd, heq⟩
    rcases List.mem_cons.mp hd with rfl | htail
    · show applyDeletes root rest _ p = none
      refine applyDeletes_none_preserved root rest _ p ?_
      show (if p = resolvePath root d then none else fs p) = none
      rw [if_pos heq.symm]
    · show applyDeletes root rest _ p = none
      exact ih _ p ⟨d, htail, heq⟩

/-- Claim C9 (amended): after a transfer pass that applies every pending
change - each scheduled row written with content passing its own
staleness check, each scheduled deletion performed - re-running the diff
against the unmodified manifest yields empty `to_download` and
`to_delete`; this requires the manifest's rows to resolve to pairwise
distinct local paths and no file row to share a resolved path with a
deleted entry. -/
theorem diff_empty_after_applying_pending (root : AbsPath) (m : Manifest) (fs : FS)
    (contentOf : Entry → FileData)
    (hnodup : (m.files.map (fun r => resolvePath root r.path)).Nodup)
    (hdisj : ∀ r ∈ m.files, ∀ d ∈ m.deleted,
      resolvePath root r.path ≠ resolvePath root d)
    (hcontent : ∀ r ∈ m.files, fileMatches r (contentOf r) = true) :
    (compute_pending_changes root m
      (applyPending root (compute_pending_changes root m fs) contentOf fs)).to_download
      = [] ∧
    (compute_pending_changes root m
      (applyPending root (compute_pending_changes root m fs) contentOf fs)).to_delete
      = [] := by
  constructor
  · show m.files.filter (fun row =>
        !localOk (applyPending root (compute_pending_changes root m fs) contentOf fs)
          root row) = []
    rw [List.filter_eq_nil_iff]
    intro row hrow
    have hdel_ne : ∀ d ∈ (compute_pending_changes root m fs).to_delete,
        resolvePath root d ≠ resolvePath root row.path := by
      intro d hd
      have hd' : d ∈ m.deleted.filter
          (fun rel => (fs (resolvePath root rel)).isSome) := hd
      exact (hdisj row hrow d (List.mem_of_mem_filter hd')).symm
    have hfs2row : applyPending root (compute_pending_changes root m fs) contentOf fs
          (resolvePath root row.path)
        = applyDownloads root contentOf (compute_pending_changes root m fs).to_download fs
            (resolvePath root row.path) :=
      applyDeletes_apply_of_ne root (compute_pending_changes root m fs).to_delete _ _ hdel_ne
    by_cases hok : localOk fs root row = true
    · have hnotdl : row ∉ (compute_pending_changes root m fs).to_download := by
        intro hmem
        have hmem' : row ∈ m.files.filter (fun r => !localOk fs root r) := hmem
        have hfalse := (List.mem_filter.mp hmem').2
        rw [hok] at hfalse
        exact absurd hfalse (by decide)
      have hne : ∀ r ∈ (compute_pending_changes root m fs).to_download,
          resolvePath root r.path ≠ resolvePath root row.path := by
        intro r hr hcontra
        have hr' : r ∈ m.files.filter (fun x => !localOk fs root x) := hr
        have hrfiles : r ∈ m.files := List.mem_of_mem_filter hr'
        have hreq : r = row := List.inj_on_of_nodup_map hnodup hrfiles hrow hcontra
        exact hnotdl (hreq ▸ hr)
      have hfs1row : applyDownloads root contentOf
            (compute_pending_changes root m fs).to_download fs (resolvePath root row.path)
          = fs (resolvePath root row.path) :=
        applyDownloads_apply_of_ne root contentOf
          (compute_pending_changes root m fs).to_download fs _ hne
      have hsame : localOk (applyPending root (compute_pending_changes root m fs)
            contentOf fs) root row = localOk fs root row :=
        localOk_congr _ fs root row (by rw [hfs2row, hfs1row])
      simp [hsame, hok]
    · have hmem : row ∈ (compute_pending_changes root m fs).to_download := by
        show row ∈ m.files.filter (fun r => !localOk fs root r)
        refine List.mem_filter.mpr ⟨hrow, ?_⟩
        simp [Bool.not_eq_true] at hok
        simp [hok]
      have hsubnd : ((compute_pending_changes root m fs).to_download.map
          (fun r => resolvePath root r.path)).Nodup := by
        refine hnodup.sublist ?_
        exact (List.filter_sublist m.files).map _
      have hfs1row : applyDownloads root contentOf
            (compute_pending_changes root m fs).to_download fs (resolvePath root row.path)
          = some (contentOf row) :=
        applyDownloads_apply_of_mem root contentOf
          (compute_pending_changes root m fs).to_download fs row hmem hsubnd
      have hloc : localOk (applyPending root (compute_pending_changes root m fs)
          contentOf fs) root row = true := by
        simp only [localOk]
        rw [hfs2row, hfs1row]
        exact hcontent row hrow
      simp [hloc]
  · show m.deleted.filter (fun rel =>
        ((applyPending root (compute_pending_changes root m fs) contentOf fs)
          (resolvePath root rel)).isSome) = []
    rw [List.filter_eq_nil_iff]
    intro d hd
    have hnone : applyPending root (compute_pending_changes root m fs) contentOf fs
        (resolvePath root d) = none := by
      by_cases hex : ∃ e ∈ (compute_pending_changes root m fs).to_delete,
          resolvePath root e = resolvePath root d
      · exact applyDeletes_apply_of_mem root
          (compute_pending_changes root m fs).to_delete _ _ hex
      · push_neg at hex
        have h1 : applyPending root (compute_pending_changes root m fs) contentOf fs
              (resolvePath root d)
            = applyDownloads root contentOf
                (compute_pending_changes root m fs).to_download fs (resolvePath root d) :=
          applyDeletes_apply_of_ne root (compute_pending_changes root m fs).to_delete _ _ hex
        have hnotdel : d ∉ (compute_pending_changes root m fs).to_delete :=
          fun hdm => hex d hdm rfl
        have h0 : fs (resolvePath root d) = none := by
          cases hcase : fs (resolvePath root d) with
          | none => rfl
          | some fd =>
            exfalso
            refine hnotdel ?_
            show d ∈ m.deleted.filter (fun rel => (fs (resolvePath root rel)).isSome)
            refine List.mem_filter.mpr ⟨hd, ?_⟩
            simp [hcase]
        have h2 : applyDownloads root contentOf
              (compute_pending_changes root m fs).to_download fs (resolvePath root d)
            = fs (resolvePath root d) := by
          refine applyDownloads_apply_of_ne root contentOf
            (compute_pending_changes root m fs).to_download fs _ ?_
          intro r hr
          have hr' : r ∈ m.files.filter (fun x => !localOk fs root x) := hr
          exact hdisj r (List.mem_of_mem_filter hr') d hd
        rw [h1, h2, h0]
    simp [hnone]

/-- Instantiation of the apply-then-rediff theorem: one stale file
downloaded with matching content and one existing deleted path removed,
after which the diff is empty. -/
theorem diff_empty_after_applying_witness :
    (compute_pending_changes root0 applyManifest
      (applyPending root0 (compute_pending_changes root0 applyManifest applyFs)
        applyContent applyFs)).to_download = [] ∧
    (compute_pending_changes root0 applyManifest
      (applyPending root0 (compute_pending_changes root0 applyManifest applyFs)
        applyContent applyFs)).to_delete = [] :=
  diff_empty_after_applying_pending root0 applyManifest applyFs applyContent
    (by decide) (by decide) (by decide)

end ArchiveSync
